import Mathlib

/-!
# Woodpecker `cli/exec`: a shallow embedding of `exec.go`

The local pipeline executor of `cli/exec/exec.go` is embedded function by
function.  Go strings are Lean strings, Go maps are association lists whose
keys are pairwise distinct, the collaborators outside the file (template
expander, YAML parser, linter, compiler, backend) are fields of a `World`
record, and a call that may return a Go `error` or crash with a run-time
panic produces an `Outcome`.
-/

namespace Woodpecker

/-! ## Go run-time values -/

/-- A Go `error` value, identified with its message. -/
abbrev GoError := String

/-- The run-time panics the embedded code can raise. -/
inductive Panic where
  | indexOutOfRange (index len : Nat)
  deriving DecidableEq, Repr

/-- Result of a Go call: a value with a nil error, a non-nil error, or a
run-time panic that unwinds the goroutine. -/
inductive Outcome (α : Type) where
  | ok (a : α)
  | error (e : GoError)
  | panic (p : Panic)
  deriving DecidableEq, Repr

namespace Outcome

/-- Sequencing of Go statements: the first error or panic ends the function. -/
def bind {α β : Type} (x : Outcome α) (f : α → Outcome β) : Outcome β :=
  match x with
  | ok a => f a
  | error e => error e
  | panic p => panic p

instance : Monad Outcome where
  pure := Outcome.ok
  bind := Outcome.bind

/-- A call returning `(value, error)`. -/
def ofExcept {α : Type} : Except GoError α → Outcome α
  | Except.ok a => ok a
  | Except.error e => error e

/-- A call returning only `error`: nil is success. -/
def ofError : Option GoError → Outcome Unit
  | none => ok ()
  | some e => error e

end Outcome

/-- Slice indexing `xs[i]`, which panics when `i` is out of range. -/
def index {α : Type} (xs : List α) (i : Nat) : Outcome α :=
  match xs.get? i with
  | some a => Outcome.ok a
  | none => Outcome.panic (Panic.indexOutOfRange i xs.length)

/-! ## Go maps `map[string]string` -/

/-- A `map[string]string`: its entries, listed in one iteration order.  A
well-formed map has pairwise distinct keys. -/
abbrev GoMap := List (String × String)

namespace GoMap

/-- Keys of the map, in iteration order. -/
def keys (m : GoMap) : List String := m.map Prod.fst

/-- The two-result lookup `v, ok := m[k]`. -/
def find? (m : GoMap) (k : String) : Option String :=
  match m with
  | [] => none
  | (k', v) :: rest => if k' = k then some v else find? rest k

/-- The lookup `m[k]`, which yields the zero value `""` for an absent key. -/
def get (m : GoMap) (k : String) : String := (find? m k).getD ""

/-- The assignment `m[k] = v`: overwrite the entry of `k` or add one. -/
def set (m : GoMap) (k v : String) : GoMap :=
  match m with
  | [] => [(k, v)]
  | (k', v') :: rest => if k' = k then (k, v) :: rest else (k', v') :: set rest k v

end GoMap

/-! ## The parts of the Go standard library that `exec.go` calls -/

/-- Split `s` at its first occurrence of the character `sep`. -/
def cut (sep : Char) : List Char → Option (List Char × List Char)
  | [] => none
  | c :: rest =>
    if c = sep then some ([], rest)
    else match cut sep rest with
      | some (a, b) => some (c :: a, b)
      | none => none

/-- Go `strings.SplitN(s, sep, n)` for a one-character separator and `n ≥ 0`:
at most `n` substrings, the last one being the unsplit remainder. -/
def splitNChars (sep : Char) : Nat → List Char → List (List Char)
  | 0, _ => []
  | 1, s => [s]
  | n + 2, s =>
    match cut sep s with
    | none => [s]
    | some (a, b) => a :: splitNChars sep (n + 1) b

/-- Go `strings.SplitN(s, string(sep), n)`. -/
def SplitN (s : String) (sep : Char) (n : Nat) : List String :=
  (splitNChars sep n s.data).map String.mk

/-- Go `strings.TrimPrefix(s, p)`: `s` without the leading `p`, or `s`
itself when it does not start with `p`. -/
def TrimPrefix (s p : String) : String :=
  if p.data.isPrefixOf s.data then String.mk (s.data.drop p.data.length) else s

/-- Go `strings.TrimSuffix(s, p)`: `s` without the trailing `p`, or `s`
itself when it does not end with `p`. -/
def TrimSuffix (s p : String) : String :=
  if p.data.isSuffixOf s.data then String.mk (s.data.take (s.data.length - p.data.length)) else s

/-- Go `strings.ToLower(s)`: an all-ASCII string is lowered letter by letter,
any other string is mapped through `unicode.ToLower`, here `lowerRune`. -/
def ToLower (lowerRune : Char → Char) (s : String) : String :=
  if s.data.all (fun c => c.val < 128) then String.mk (s.data.map Char.toLower)
  else String.mk (s.data.map lowerRune)

/-- Windows `filepath.ToSlash(path)`: every separator `\` becomes `/`. -/
def ToSlash (path : String) : String :=
  String.mk (path.data.map (fun c => if c = '\\' then '/' else c))

/-- Function `convertPathForWindows` of `exec.go`.  The library function
`filepath.VolumeName`, whose rules differ between Go releases, is the
parameter `volumeName`. -/
def convertPathForWindows (volumeName : String → String) (lowerRune : Char → Char)
    (path : String) : String :=
  let base := volumeName path
  if base.length = 2 then
    let path := TrimPrefix path base
    let base := ToLower lowerRune (TrimSuffix base ":")
    "/" ++ base ++ ToSlash path
  else
    ToSlash path

/-! ### `filepath.VolumeName` on Windows, recent Go releases -/

/-- Windows `IsPathSeparator` of `path/filepath`. -/
def IsPathSeparator (c : Char) : Bool := c = '\\' || c = '/'

/-- The comparison loop of `pathHasPrefixFold`: separators of the prefix
match any separator, other characters match without regard to case. -/
def prefixFoldLoop : List Char → List Char → Bool
  | _, [] => true
  | [], _ :: _ => false
  | c :: s, p :: ps =>
    (if IsPathSeparator p then IsPathSeparator c else p.toUpper = c.toUpper)
      && prefixFoldLoop s ps

/-- Helper `pathHasPrefixFold(s, prefix)` of `path/filepath`: `s` begins
with `prefix`, and if `s` is longer the next character is a separator. -/
def pathHasPrefixFold (s pre : List Char) : Bool :=
  if s.length < pre.length then false
  else if !prefixFoldLoop s pre then false
  else if pre.length < s.length && !IsPathSeparator (s.getD pre.length ' ') then false
  else true

/-- Helper `cutPath(path)` of `path/filepath`: the parts before and after
the first separator, and whether there is one. -/
def cutPath : List Char → List Char × List Char × Bool
  | [] => ([], [], false)
  | c :: rest =>
    if IsPathSeparator c then ([], rest, true)
    else ((c :: (cutPath rest).1), (cutPath rest).2.1, (cutPath rest).2.2)

/-- The loop of `uncLen` on the characters from index `i` on, `count`
separators seen so far: the index of the second separator, or the length. -/
def uncLenLoop : List Char → Nat → Nat → Nat
  | [], i, _ => i
  | c :: rest, i, count =>
    if IsPathSeparator c then
      if count + 1 = 2 then i else uncLenLoop rest (i + 1) (count + 1)
    else uncLenLoop rest (i + 1) count

/-- Helper `uncLen(path, prefixLen)` of `path/filepath`: the length of the
volume of a UNC path whose host starts at `prefixLen`. -/
def uncLen (path : List Char) (prefixLen : Nat) : Nat :=
  if prefixLen ≤ path.length then uncLenLoop (path.drop prefixLen) prefixLen 0
  else path.length

/-- Windows `volumeNameLen(path)` of `path/filepath` in recent Go releases,
where the drive test `len(path) >= 2 && path[1] == ':'` no longer asks for a
letter.  Indices count characters: the second byte can only be `:` when the
first character is a single byte, and every other tested character is ASCII,
so byte and character positions of the tested places agree. -/
def volumeNameLen (path : List Char) : Nat :=
  if 2 ≤ path.length && (path.getD 0 ' ').val < 128 && path.getD 1 ' ' = ':' then 2
  else if path.length = 0 || !IsPathSeparator (path.getD 0 ' ') then 0
  else if pathHasPrefixFold path "\\\\.\\UNC".data then uncLen path 8
  else if pathHasPrefixFold path "\\\\.".data || pathHasPrefixFold path "\\\\?".data
      || pathHasPrefixFold path "\\??".data then
    if path.length = 3 then 3
    else if !(cutPath (path.drop 4)).2.2 then path.length
    else path.length - (cutPath (path.drop 4)).2.1.length - 1
  else if 2 ≤ path.length && IsPathSeparator (path.getD 1 ' ') then uncLen path 2
  else 0

/-- Windows `filepath.VolumeName(path)`: the leading volume name. -/
def VolumeName (path : String) : String :=
  String.mk (path.data.take (volumeNameLen path.data))

/-- A letter of the ASCII alphabet, the first character of a drive prefix
such as `C:`. -/
def isDriveLetter (c : Char) : Bool :=
  ('a' ≤ c && c ≤ 'z') || ('A' ≤ c && c ≤ 'Z')

/-! ## Data model: `matrix.Axis`, `frontend.Metadata`, `compiler.Secret` -/

/-- Type `matrix.Axis`, a `map[string]string` from variable name to value. -/
abbrev Axis := GoMap

/-- Type `frontend.Repo`, restricted to the fields `exec.go` fills in. -/
structure Repo where
  Name : String
  Link : String
  Remote : String
  Private : Bool
  deriving DecidableEq, Repr

/-- Type `frontend.Author`. -/
structure Author where
  Name : String
  Email : String
  Avatar : String
  deriving DecidableEq, Repr

/-- Type `frontend.Commit`. -/
structure Commit where
  Sha : String
  Ref : String
  Refspec : String
  Branch : String
  Message : String
  Author : Author
  deriving DecidableEq, Repr

/-- Type `frontend.Build`; fields that `exec.go` leaves out of a literal keep
their zero value. -/
structure Build where
  Number : Int
  Parent : Int := 0
  Created : Int
  Started : Int
  Finished : Int
  Status : String
  Event : String
  Link : String
  Target : String := ""
  Commit : Commit
  deriving DecidableEq, Repr

/-- Type `frontend.Job`: the job number and the axis assigned to the job. -/
structure Job where
  Number : Int
  Matrix : Axis
  deriving DecidableEq, Repr

/-- Type `frontend.System`. -/
structure System where
  Name : String
  Link : String
  Arch : String
  deriving DecidableEq, Repr

/-- Type `frontend.Metadata`. -/
structure Metadata where
  Repo : Repo
  Curr : Build
  Prev : Build
  Job : Job
  Sys : System
  deriving DecidableEq, Repr

/-- Type `compiler.Secret`, restricted to the fields `exec.go` fills in. -/
structure Secret where
  Name : String
  Value : String
  deriving DecidableEq, Repr

/-- Type `yaml.Workspace`: the `workspace` block of a parsed definition. -/
structure Workspace where
  Base : String
  Path : String
  deriving DecidableEq, Repr

/-- The `*cli.Context` handed to the command: the positional arguments and
the flag values, read by flag name. -/
structure Context where
  args : List String
  string : String → String
  int : String → Int
  int64 : String → Int
  bool : String → Bool
  stringSlice : String → List String
  duration : String → Int

/-- Call `c.Args().First()`: the first positional argument, or `""`. -/
def Context.argsFirst (c : Context) : String := c.args.headD ""

/-- The options `execWithAxis` builds the compiler with (`compiler.New`),
one field per `compiler.With...` option. -/
structure CompilerOptions where
  escalated : List String
  volumes : List String
  workspaceBase : String
  workspacePath : String
  networks : List String
  namePrefix : String
  proxy : Bool
  isLocal : Bool
  netrcUsername : String
  netrcPassword : String
  netrcMachine : String
  metadata : Metadata
  secrets : List Secret
  environ : GoMap
  deriving DecidableEq, Repr

/-- The collaborators of `exec.go` that live outside the file.  `Template`,
`Config`, `Compiled` and `Engine` are their opaque result types
(`*envsubst.Template`, `*yaml.Config`, `*backend.Config`, `backend.Engine`). -/
structure World (Template Config Compiled Engine : Type) where
  /-- Call `ioutil.ReadFile`. -/
  readFile : String → Except GoError String
  /-- Call `matrix.ParseString`. -/
  matrixParseString : String → Except GoError (List Axis)
  /-- Method `frontend.Metadata.Environ`. -/
  environ : Metadata → GoMap
  /-- Method `frontend.Metadata.EnvironDrone`. -/
  environDrone : Metadata → GoMap
  /-- Call `envsubst.ParseFile`. -/
  envsubstParseFile : String → Except GoError Template
  /-- Method `Template.Execute`, given the variable lookup. -/
  templateExecute : Template → (String → String) → Except GoError String
  /-- Call `yaml.ParseString`. -/
  yamlParseString : String → Except GoError Config
  /-- Field `conf.Workspace` of a parsed definition. -/
  workspace : Config → Workspace
  /-- The value of `filepath.Abs(filepath.Dir(file))`, its error dropped. -/
  absDir : String → String
  /-- Constant `runtime.GOOS`. -/
  goos : String
  /-- Function `filepath.VolumeName` of the toolchain. -/
  volumeName : String → String
  /-- Function `unicode.ToLower`, the case table behind `strings.ToLower`. -/
  lowerRune : Char → Char
  /-- Function `path.Join` on two elements. -/
  pathJoin : String → String → String
  /-- The trusted linter, `linter.New(linter.WithTrusted(true)).Lint`. -/
  lint : Config → Option GoError
  /-- The compiler: `compiler.New(options...).Compile(conf)`. -/
  compile : CompilerOptions → Config → Compiled
  /-- Call `docker.NewEnv`. -/
  dockerNewEnv : Except GoError Engine
  /-- The pipeline run under the timeout and interrupt context. -/
  pipelineRun : Compiled → Engine → Int → Option GoError

/-! ## `exec.go`: variable resolution and the per-axis run -/

section Exec

variable {Template Config Compiled Engine : Type}

/-- Function `metadataFromContext` of `exec.go`: the metadata snapshot built
from the flags and the axis of the job. -/
def metadataFromContext (c : Context) (axis : Axis) : Metadata :=
  { Repo :=
      { Name := c.string "repo-name"
        Link := c.string "repo-link"
        Remote := c.string "repo-remote-url"
        Private := c.bool "repo-private" }
    Curr :=
      { Number := c.int "build-number"
        Parent := c.int "parent-build-number"
        Created := c.int64 "build-created"
        Started := c.int64 "build-started"
        Finished := c.int64 "build-finished"
        Status := c.string "build-status"
        Event := c.string "build-event"
        Link := c.string "build-link"
        Target := c.string "build-target"
        Commit :=
          { Sha := c.string "commit-sha"
            Ref := c.string "commit-ref"
            Refspec := c.string "commit-refspec"
            Branch := c.string "commit-branch"
            Message := c.string "commit-message"
            Author :=
              { Name := c.string "commit-author-name"
                Email := c.string "commit-author-email"
                Avatar := c.string "commit-author-avatar" } } }
    Prev :=
      { Number := c.int "prev-build-number"
        Created := c.int64 "prev-build-created"
        Started := c.int64 "prev-build-started"
        Finished := c.int64 "prev-build-finished"
        Status := c.string "prev-build-status"
        Event := c.string "prev-build-event"
        Link := c.string "prev-build-link"
        Commit :=
          { Sha := c.string "prev-commit-sha"
            Ref := c.string "prev-commit-ref"
            Refspec := c.string "prev-commit-refspec"
            Branch := c.string "prev-commit-branch"
            Message := c.string "prev-commit-message"
            Author :=
              { Name := c.string "prev-commit-author-name"
                Email := c.string "prev-commit-author-email"
                Avatar := c.string "prev-commit-author-avatar" } } }
    Job :=
      { Number := c.int "job-number"
        Matrix := axis }
    Sys :=
      { Name := c.string "system-name"
        Link := c.string "system-link"
        Arch := c.string "system-arch" } }

/-- The file argument of `exec` and `execWithAxis`: the first positional
argument, `.woodpecker.yml` when there is none. -/
def definitionFile (c : Context) : String :=
  if c.argsFirst = "" then ".woodpecker.yml" else c.argsFirst

/-- The locals `metadata`, `environ` and `secrets` of `execWithAxis` once
its two `range` loops have run. -/
structure Resolved where
  metadata : Metadata
  environ : GoMap
  secrets : List Secret
  deriving DecidableEq, Repr

/-- Body of `for key, val := range metadata.Job.Matrix`: set the variable in
the environment and append it to the secrets. -/
def addAxisVariable (acc : GoMap × List Secret) (kv : String × String) :
    GoMap × List Secret :=
  (acc.1.set kv.1 kv.2, acc.2 ++ [{ Name := kv.1, Value := kv.2 }])

/-- The head of `execWithAxis`: `metadata`, then `environ` from
`metadata.Environ()` overwritten by `metadata.EnvironDrone()` and by the
axis, and `secrets` with one entry per axis variable. -/
def resolveVariables (w : World Template Config Compiled Engine) (c : Context)
    (axis : Axis) : Resolved :=
  let metadata := metadataFromContext c axis
  let environ := w.environ metadata
  let environ := (w.environDrone metadata).foldl (fun env kv => env.set kv.1 kv.2) environ
  let acc := metadata.Job.Matrix.foldl addAxisVariable (environ, [])
  { metadata := metadata, environ := acc.1, secrets := acc.2 }

/-- Body of the loop over `c.StringSlice("env")`: the override is split at
its first `=`, and `droneEnv[envs[0]] = envs[1]` is stored. -/
def setOverride (m : GoMap) (env : String) : Outcome GoMap := do
  let envs := SplitN env '=' 2
  let key ← index envs 0
  let val ← index envs 1
  pure (m.set key val)

/-- The loop of `execWithAxis` over `c.StringSlice("env")`, which fills the
map `droneEnv` made empty before it. -/
def droneEnv (envs : List String) : Outcome GoMap :=
  envs.foldlM setOverride []

/-- The closure `func(name string) string` that `execWithAxis` passes to
`tmpl.Execute`. -/
def environLookup (environ : GoMap) : String → String :=
  fun name => environ.get name

/-- The block of `execWithAxis` headed "configure volumes for local
execution". -/
def configureVolumes (w : World Template Config Compiled Engine) (c : Context)
    (conf : Config) (file : String) : List String :=
  let volumes := c.stringSlice "volumes"
  if c.bool "local" then
    let workspaceBase := (w.workspace conf).Base
    let workspacePath := (w.workspace conf).Path
    let workspaceBase := if workspaceBase = "" then c.string "workspace-base" else workspaceBase
    let workspacePath := if workspacePath = "" then c.string "workspace-path" else workspacePath
    let dir := w.absDir file
    let dir :=
      if w.goos = "windows" then convertPathForWindows w.volumeName w.lowerRune dir else dir
    let volumes := volumes ++ [c.string "prefix" ++ "_default:" ++ workspaceBase]
    volumes ++ [dir ++ ":" ++ w.pathJoin workspaceBase workspacePath]
  else
    volumes

/-- The locals of `execWithAxis` that are live once the template has been
executed. -/
structure Substituted where
  file : String
  metadata : Metadata
  environ : GoMap
  secrets : List Secret
  droneEnv : GoMap
  confstr : String
  deriving DecidableEq, Repr

/-- Function `execWithAxis` up to and including `tmpl.Execute`. -/
def substitute (w : World Template Config Compiled Engine) (c : Context)
    (axis : Axis) : Outcome Substituted := do
  let file := definitionFile c
  let r := resolveVariables w c axis
  let overrides ← droneEnv (c.stringSlice "env")
  let tmpl ← Outcome.ofExcept (w.envsubstParseFile file)
  let confstr ← Outcome.ofExcept (w.templateExecute tmpl (environLookup r.environ))
  pure
    { file := file, metadata := r.metadata, environ := r.environ, secrets := r.secrets,
      droneEnv := overrides, confstr := confstr }

/-- Function `execWithAxis` up to the call of the compiler: the options of
`compiler.New` and the definition handed to `Compile`. -/
def compilerCall (w : World Template Config Compiled Engine) (c : Context)
    (axis : Axis) : Outcome (CompilerOptions × Config) := do
  let s ← substitute w c axis
  let conf ← Outcome.ofExcept (w.yamlParseString s.confstr)
  let volumes := configureVolumes w c conf s.file
  Outcome.ofError (w.lint conf)
  pure
    ({ escalated := c.stringSlice "privileged"
       volumes := volumes
       workspaceBase := c.string "workspace-base"
       workspacePath := c.string "workspace-path"
       networks := c.stringSlice "network"
       namePrefix := c.string "prefix"
       proxy := true
       isLocal := c.bool "local"
       netrcUsername := c.string "netrc-username"
       netrcPassword := c.string "netrc-password"
       netrcMachine := c.string "netrc-machine"
       metadata := s.metadata
       secrets := s.secrets
       environ := s.droneEnv }, conf)

/-- Function `execWithAxis` of `exec.go`. -/
def execWithAxis (w : World Template Config Compiled Engine) (c : Context)
    (axis : Axis) : Outcome Unit := do
  let (options, conf) ← compilerCall w c axis
  let compiled := w.compile options conf
  let engine ← Outcome.ofExcept w.dockerNewEnv
  Outcome.ofError (w.pipelineRun compiled engine (c.duration "timeout"))

/-- The loop `for _, axis := range axes` of `exec`, for a per-axis executor
`run`: the axes `run` was invoked on, in order, and the result of `exec`. -/
def execAxes (run : Axis → Outcome Unit) : List Axis → List Axis × Outcome Unit
  | [] => ([], Outcome.ok ())
  | axis :: rest =>
    match run axis with
    | Outcome.ok _ => (axis :: (execAxes run rest).1, (execAxes run rest).2)
    | Outcome.error e => ([axis], Outcome.error e)
    | Outcome.panic p => ([axis], Outcome.panic p)

/-- The statement `if len(axes) == 0` of `exec`: an empty matrix becomes one
axis without variables. -/
def normalizeAxes (axes : List Axis) : List Axis :=
  if axes.length = 0 then axes ++ [([] : Axis)] else axes

/-- Function `exec` of `exec.go`, together with the list of axes on which
`execWithAxis` was invoked. -/
def exec (w : World Template Config Compiled Engine) (c : Context) :
    List Axis × Outcome Unit :=
  let file := definitionFile c
  match w.readFile file with
  | Except.error err => ([], Outcome.error err)
  | Except.ok dat =>
    match w.matrixParseString dat with
    | Except.error _ => ([], Outcome.error "Parse matrix fail")
    | Except.ok axes => execAxes (execWithAxis w c) (normalizeAxes axes)

end Exec

/-! ## `exec.go`: the default logger -/

/-- Type `backend.Step`, restricted to the field the logger reads. -/
structure Step where
  Alias : String
  deriving DecidableEq, Repr

/-- Variable `defaultLogger` of `exec.go`.  `nextPart` is the result of
`rc.NextPart()`; `copy alias part sink` is `io.Copy(NewLineWriter(alias), part)`:
the sink after the copy and the error of the copy. -/
def defaultLogger {Part Sink : Type} (copy : String → Part → Sink → Sink × Option GoError)
    (proc : Step) (nextPart : Except GoError Part) (sink : Sink) : Sink × Option GoError :=
  match nextPart with
  | Except.error err => (sink, some err)
  | Except.ok part =>
    let logstream := proc.Alias
    let copied := copy logstream part sink
    (copied.1, none)

/-! ## Reference definitions and a sample run -/

/-- The value of an outcome mapped through `f`; errors and panics are kept. -/
def Outcome.map {α β : Type} (f : α → β) : Outcome α → Outcome β
  | Outcome.ok a => Outcome.ok (f a)
  | Outcome.error e => Outcome.error e
  | Outcome.panic p => Outcome.panic p

/-- The context `c` with the values of its `env` flag replaced by `envs`. -/
def Context.withEnv (c : Context) (envs : List String) : Context :=
  { c with stringSlice := fun name => if name = "env" then envs else c.stringSlice name }

/-- The path rule as the specification words it: a path that starts with a
drive letter and a colon becomes `/`, the lower-cased letter and the rest
with forward slashes; any other path only has its backslashes replaced. -/
def convertPathReference (path : String) : String :=
  match path.data with
  | c :: d :: rest =>
    if d = ':' ∧ isDriveLetter c = true then
      "/" ++ String.singleton c.toLower ++ ToSlash (String.mk rest)
    else ToSlash path
  | _ => ToSlash path

/-- A sample context: local mode, two overrides, one user volume. -/
def sampleContext : Context :=
  { args := []
    string := fun name =>
      if name = "workspace-base" then "/go"
      else if name = "workspace-path" then "src"
      else if name = "prefix" then "wp"
      else if name = "repo-name" then "woodpecker"
      else ""
    int := fun _ => 0
    int64 := fun _ => 0
    bool := fun name => name = "local"
    stringSlice := fun name =>
      if name = "env" then ["A=b=c", "B=", "A=d"]
      else if name = "volumes" then ["/tmp:/tmp"]
      else []
    duration := fun _ => 3600 }

/-- A sample world on Windows: the template is the variable `GO_VERSION`, a
definition is its workspace, the definition text `bad` does not parse, and
the compiled pipeline is the option record.  The matrix has three axes. -/
def sampleWorld : World String Workspace CompilerOptions Unit :=
  { readFile := fun _ => Except.ok "matrix"
    matrixParseString := fun _ =>
      Except.ok [[("GO_VERSION", "1.20")], [("GO_VERSION", "bad")], [("GO_VERSION", "1.21")]]
    environ := fun md => [("CI_REPO_NAME", md.Repo.Name), ("GO_VERSION", "none")]
    environDrone := fun md => [("DRONE_REPO_NAME", md.Repo.Name)]
    envsubstParseFile := fun file => Except.ok file
    templateExecute := fun _ lookup => Except.ok (lookup "GO_VERSION")
    yamlParseString := fun text =>
      if text = "bad" then Except.error "yaml: cannot parse" else Except.ok { Base := "", Path := text }
    workspace := fun conf => conf
    absDir := fun _ => "C:\\src\\app"
    goos := "windows"
    volumeName := VolumeName
    lowerRune := fun c => c
    pathJoin := fun a b => a ++ "/" ++ b
    lint := fun _ => none
    compile := fun options _ => options
    dockerNewEnv := Except.ok ()
    pipelineRun := fun _ _ _ => none }

/-- The sample world with a definition file that declares no matrix. -/
def plainWorld : World String Workspace CompilerOptions Unit :=
  { sampleWorld with matrixParseString := fun _ => Except.ok [] }

/-- The world without a matrix in which no definition parses. -/
def brokenWorld : World String Workspace CompilerOptions Unit :=
  { plainWorld with yamlParseString := fun _ => Except.error "yaml: cannot parse" }

/-- The axis of the first job of the sample matrix. -/
def sampleAxis : Axis := [("GO_VERSION", "1.20")]

/-- The compiler options of the sample run on `sampleAxis`. -/
def sampleOptions : CompilerOptions :=
  { escalated := []
    volumes := ["/tmp:/tmp", "wp_default:/go", "/c/src/app:/go/1.20"]
    workspaceBase := "/go"
    workspacePath := "src"
    networks := []
    namePrefix := "wp"
    proxy := true
    isLocal := true
    netrcUsername := ""
    netrcPassword := ""
    netrcMachine := ""
    metadata := metadataFromContext sampleContext sampleAxis
    secrets := [{ Name := "GO_VERSION", Value := "1.20" }]
    environ := [("A", "d"), ("B", "")] }

/-- A sample log part: the bytes of the part and the error its copy ends
with; the sample sink is the list of `(alias, bytes)` written. -/
def sampleCopy (logstream : String) (part : String × Option GoError)
    (sink : List (String × String)) : List (String × String) × Option GoError :=
  (sink ++ [(logstream, part.1)], part.2)

/-! ## Lemmas on Go maps -/

namespace GoMap

theorem find?_set_self (m : GoMap) (k v : String) : (m.set k v).find? k = some v := by
  induction m with
  | nil => simp [set, find?]
  | cons kv rest ih =>
    obtain ⟨k', v'⟩ := kv
    by_cases h : k' = k
    · simp [set, find?, h]
    · simp [set, find?, h, ih]

theorem find?_set_other (m : GoMap) {k k' : String} (v : String) (h : k ≠ k') :
    (m.set k v).find? k' = m.find? k' := by
  induction m with
  | nil => simp [set, find?, h]
  | cons kv rest ih =>
    obtain ⟨k₀, v₀⟩ := kv
    by_cases h₀ : k₀ = k
    · subst h₀
      simp [set, find?, h]
    · simp [set, find?, h₀, ih]

theorem find?_eq_none_iff (m : GoMap) (k : String) : m.find? k = none ↔ k ∉ m.keys := by
  induction m with
  | nil => simp [find?, keys]
  | cons kv rest ih =>
    obtain ⟨k₀, v₀⟩ := kv
    by_cases h₀ : k₀ = k
    · simp [find?, keys, h₀]
    · have h₁ : ¬ k = k₀ := fun h => h₀ h.symm
      simpa [find?, keys, h₀, h₁] using ih

theorem find?_of_mem {m : GoMap} (hm : m.keys.Nodup) {k v : String} (h : (k, v) ∈ m) :
    m.find? k = some v := by
  induction m with
  | nil => simp at h
  | cons kv rest ih =>
    obtain ⟨k₀, v₀⟩ := kv
    simp only [keys, List.map_cons, List.nodup_cons] at hm
    rcases List.mem_cons.mp h with h | h
    · cases h
      simp [find?]
    · have hk : k ∈ List.map Prod.fst rest := List.mem_map.mpr ⟨(k, v), h, rfl⟩
      have h₀ : ¬ k₀ = k := fun e => hm.1 (e ▸ hk)
      simpa [find?, h₀] using ih hm.2 h

theorem mem_of_find? {m : GoMap} {k v : String} (h : m.find? k = some v) : (k, v) ∈ m := by
  induction m with
  | nil => simp [find?] at h
  | cons kv rest ih =>
    obtain ⟨k₀, v₀⟩ := kv
    by_cases h₀ : k₀ = k
    · simp [find?, h₀] at h
      simp [h₀, h]
    · simp only [find?, h₀, if_false] at h
      exact List.mem_cons_of_mem _ (ih h)

theorem find?_foldl_set_of_not_mem (entries : GoMap) (base : GoMap) {k : String}
    (h : k ∉ entries.keys) :
    (entries.foldl (fun env kv => env.set kv.1 kv.2) base).find? k = base.find? k := by
  induction entries generalizing base with
  | nil => rfl
  | cons kv rest ih =>
    simp only [keys, List.map_cons, List.mem_cons, not_or] at h
    simp only [List.foldl_cons]
    rw [ih _ h.2, find?_set_other _ _ (fun e => h.1 e.symm)]

/-- Assigning the entries of `entries` one after the other, as a `range`
loop over a map with distinct keys does. -/
theorem find?_foldl_set_of_mem (entries : GoMap) (hm : entries.keys.Nodup) (base : GoMap)
    {k v : String} (h : (k, v) ∈ entries) :
    (entries.foldl (fun env kv => env.set kv.1 kv.2) base).find? k = some v := by
  induction entries generalizing base with
  | nil => simp at h
  | cons kv rest ih =>
    obtain ⟨k₀, v₀⟩ := kv
    simp only [keys, List.map_cons, List.nodup_cons] at hm
    simp only [List.foldl_cons]
    rcases List.mem_cons.mp h with h | h
    · cases h
      rw [find?_foldl_set_of_not_mem rest _ hm.1]
      exact find?_set_self _ _ _
    · exact ih hm.2 _ h

theorem keys_set (m : GoMap) (k v : String) :
    (m.set k v).keys = if k ∈ m.keys then m.keys else m.keys ++ [k] := by
  induction m with
  | nil => simp [set, keys]
  | cons kv rest ih =>
    obtain ⟨k₀, v₀⟩ := kv
    by_cases h₀ : k₀ = k
    · simp [set, keys, h₀]
    · have h₁ : ¬ k = k₀ := fun e => h₀ e.symm
      simp only [keys] at ih
      simp only [set, keys, h₀, if_false, List.map_cons, List.mem_cons, h₁, false_or, ih]
      split <;> simp

/-- An assignment keeps the keys of a map pairwise distinct. -/
theorem nodup_set {m : GoMap} (hm : m.keys.Nodup) (k v : String) : (m.set k v).keys.Nodup := by
  rw [keys_set]
  split
  · exact hm
  · rename_i hk
    exact List.Nodup.append hm (List.nodup_singleton k) (by simpa using hk)

theorem nodup_foldl_set (entries : GoMap) {base : GoMap} (hb : base.keys.Nodup) :
    (entries.foldl (fun env kv => env.set kv.1 kv.2) base).keys.Nodup := by
  induction entries generalizing base with
  | nil => exact hb
  | cons kv rest ih => exact ih (nodup_set hb _ _)

end GoMap

/-! ## Sequencing of outcomes -/

@[simp] theorem Outcome.ok_bind {α β : Type} (a : α) (f : α → Outcome β) :
    (Outcome.ok a >>= f) = f a := rfl

@[simp] theorem Outcome.error_bind {α β : Type} (e : GoError) (f : α → Outcome β) :
    (Outcome.error e >>= f) = Outcome.error e := rfl

@[simp] theorem Outcome.panic_bind {α β : Type} (p : Panic) (f : α → Outcome β) :
    (Outcome.panic p >>= f) = Outcome.panic p := rfl

@[simp] theorem Outcome.pure_eq {α : Type} (a : α) : (pure a : Outcome α) = Outcome.ok a := rfl

/-! ## The axis loop of `exec` -/

section ExecTheorems

variable {Template Config Compiled Engine : Type}

/-- The loop stops at the first axis whose run returns an error: every axis
before it, and it, were run once in order, and its error is the result. -/
theorem execAxes_first_error (run : Axis → Outcome Unit) (xs : List Axis) :
    ∀ (i : Nat) (a : Axis) (e : GoError), xs[i]? = some a →
      (∀ j b, j < i → xs[j]? = some b → run b = Outcome.ok ()) →
      run a = Outcome.error e →
      execAxes run xs = (xs.take (i + 1), Outcome.error e) := by
  induction xs with
  | nil => intro i a e h; simp at h
  | cons x rest ih =>
    intro i a e hi hbefore hfail
    cases i with
    | zero =>
      simp only [List.getElem?_cons_zero, Option.some.injEq] at hi
      subst hi
      simp [execAxes, hfail]
    | succ n =>
      have hx : run x = Outcome.ok () := hbefore 0 x (Nat.succ_pos n) (by simp)
      have hrest := ih n a e (by simpa using hi)
        (fun j b hj hb => hbefore (j + 1) b (Nat.succ_lt_succ hj) (by simpa using hb)) hfail
      simp [execAxes, hx, hrest]

/-- When no axis fails the loop runs every axis once, in order. -/
theorem execAxes_all_ok (run : Axis → Outcome Unit) (xs : List Axis)
    (h : ∀ a ∈ xs, run a = Outcome.ok ()) : execAxes run xs = (xs, Outcome.ok ()) := by
  induction xs with
  | nil => rfl
  | cons x rest ih =>
    have hx : run x = Outcome.ok () := h x (List.mem_cons_self _ _)
    have hrest := ih (fun a ha => h a (List.mem_cons_of_mem _ ha))
    simp [execAxes, hx, hrest]

theorem exec_eq_execAxes (w : World Template Config Compiled Engine) (c : Context)
    {dat : String} {axes : List Axis} (hread : w.readFile (definitionFile c) = Except.ok dat)
    (hparse : w.matrixParseString dat = Except.ok axes) :
    exec w c = execAxes (execWithAxis w c) (normalizeAxes axes) := by
  simp [exec, hread, hparse]

theorem execAxes_invoked_ne_nil (run : Axis → Outcome Unit) (x : Axis) (rest : List Axis) :
    (execAxes run (x :: rest)).1.head? = some x := by
  simp only [execAxes]
  cases run x <;> rfl

/-- C1. Once the file is read and the matrix parsed, `exec` runs
`execWithAxis` over the axes in parser order and short-circuits: if the axis
at position `i` is the first whose run returns an error, `exec` returns that
error and has invoked the executor on exactly the axes up to position `i`,
in order; if no axis fails, every axis is run once in order and `exec`
returns no error. -/
theorem exec_short_circuit (w : World Template Config Compiled Engine) (c : Context)
    (dat : String) (axes : List Axis)
    (hread : w.readFile (definitionFile c) = Except.ok dat)
    (hparse : w.matrixParseString dat = Except.ok axes) :
    (∀ (i : Nat) (a : Axis) (e : GoError), (normalizeAxes axes)[i]? = some a →
      (∀ j b, j < i → (normalizeAxes axes)[j]? = some b → execWithAxis w c b = Outcome.ok ()) →
      execWithAxis w c a = Outcome.error e →
      exec w c = ((normalizeAxes axes).take (i + 1), Outcome.error e)) ∧
    ((∀ a ∈ normalizeAxes axes, execWithAxis w c a = Outcome.ok ()) →
      exec w c = (normalizeAxes axes, Outcome.ok ())) := by
  rw [exec_eq_execAxes w c hread hparse]
  exact ⟨execAxes_first_error _ _, execAxes_all_ok _ _⟩

/-- Witness of C1 on the sample world: the second of three axes fails to
parse, so two axes are run and the parse error is returned. -/
theorem exec_short_circuit_witness :
    exec sampleWorld sampleContext =
      ([[("GO_VERSION", "1.20")], [("GO_VERSION", "bad")]], Outcome.error "yaml: cannot parse") :=
  (exec_short_circuit sampleWorld sampleContext "matrix"
    [[("GO_VERSION", "1.20")], [("GO_VERSION", "bad")], [("GO_VERSION", "1.21")]]
    rfl rfl).1 1 [("GO_VERSION", "bad")] "yaml: cannot parse" (by decide)
    (by
      intro j b hj hb
      have hj0 : j = 0 := by omega
      subst hj0
      have hb' : b = [("GO_VERSION", "1.20")] := by
        simpa [normalizeAxes] using hb.symm
      subst hb'
      decide)
    (by decide)

/-- The loop on one axis returns what the executor returns on that axis. -/
theorem execAxes_singleton (run : Axis → Outcome Unit) (x : Axis) :
    execAxes run [x] = ([x], run x) := by
  simp only [execAxes]
  cases run x <;> rfl

/-- C2. Once the file is read and the matrix parsed, the loop of `exec`
iterates over exactly one axis without variables when the parser produced no
axis, and over the parsed axes unchanged when it produced some; the iterated
sequence has at least one axis and `execWithAxis` is invoked at least once,
first on the first axis of that sequence: an error or panic of that first
run is the result of `exec`, and without a matrix the result of `exec` is
the result of `execWithAxis` on the axis without variables. -/
theorem exec_axes_normalized (w : World Template Config Compiled Engine) (c : Context)
    (dat : String) (axes : List Axis)
    (hread : w.readFile (definitionFile c) = Except.ok dat)
    (hparse : w.matrixParseString dat = Except.ok axes) :
    (axes = [] → exec w c = execAxes (execWithAxis w c) [([] : Axis)]) ∧
    (axes ≠ [] → exec w c = execAxes (execWithAxis w c) axes) ∧
    exec w c = execAxes (execWithAxis w c) (normalizeAxes axes) ∧
    1 ≤ (normalizeAxes axes).length ∧
    (exec w c).1 ≠ [] ∧
    (exec w c).1.head? = (normalizeAxes axes).head? ∧
    (axes = [] → normalizeAxes axes = [([] : Axis)] ∧
      exec w c = ([([] : Axis)], execWithAxis w c [])) ∧
    (axes ≠ [] → normalizeAxes axes = axes) ∧
    (∀ x rest, normalizeAxes axes = x :: rest →
      (∀ e, execWithAxis w c x = Outcome.error e → exec w c = ([x], Outcome.error e)) ∧
      (∀ p, execWithAxis w c x = Outcome.panic p → exec w c = ([x], Outcome.panic p)) ∧
      (execWithAxis w c x = Outcome.ok () →
        exec w c = (x :: (execAxes (execWithAxis w c) rest).1,
          (execAxes (execWithAxis w c) rest).2))) := by
  have hexec := exec_eq_execAxes w c hread hparse
  have hlen : 1 ≤ (normalizeAxes axes).length := by
    cases axes <;> simp [normalizeAxes]
  have hhead : (exec w c).1.head? = (normalizeAxes axes).head? := by
    rw [hexec]
    cases hn : normalizeAxes axes with
    | nil => rw [hn] at hlen; simp at hlen
    | cons x rest => rw [execAxes_invoked_ne_nil]; rfl
  refine ⟨?_, ?_, hexec, hlen, ?_, hhead, ?_, ?_, ?_⟩
  · intro h; subst h; simpa [normalizeAxes] using hexec
  · intro h
    cases axes with
    | nil => exact absurd rfl h
    | cons x rest => simpa [normalizeAxes] using hexec
  · intro hnil
    rw [hnil] at hhead
    cases hn : normalizeAxes axes with
    | nil => rw [hn] at hlen; simp at hlen
    | cons x rest => rw [hn] at hhead; simp at hhead
  · intro h
    subst h
    have hn : normalizeAxes [] = [([] : Axis)] := rfl
    refine ⟨hn, ?_⟩
    rw [hexec, hn, execAxes_singleton]
  · intro h
    cases axes with
    | nil => exact absurd rfl h
    | cons x rest => rfl
  · intro x rest hn
    rw [hexec, hn]
    refine ⟨?_, ?_, ?_⟩
    · intro e he; simp [execAxes, he]
    · intro p hp; simp [execAxes, hp]
    · intro hok; simp [execAxes, hok]

/-- Witness of C2 on a definition without a matrix that does not parse: the
executor is invoked on the axis without variables, and its error is the
result of `exec`. -/
theorem exec_axes_normalized_witness :
    exec brokenWorld sampleContext = ([([] : Axis)], Outcome.error "yaml: cannot parse") ∧
    exec plainWorld sampleContext = ([([] : Axis)], Outcome.ok ()) :=
  ⟨((exec_axes_normalized brokenWorld sampleContext "matrix" [] rfl rfl).2.2.2.2.2.2.1
      rfl).2.trans (by decide),
    ((exec_axes_normalized plainWorld sampleContext "matrix" [] rfl rfl).2.2.2.2.2.2.1
      rfl).2.trans (by decide)⟩

/-! ## Variable resolution -/

theorem foldl_addAxisVariable (axis : GoMap) (env : GoMap) (secrets : List Secret) :
    axis.foldl addAxisVariable (env, secrets) =
      (axis.foldl (fun env kv => env.set kv.1 kv.2) env,
        secrets ++ axis.map (fun kv => { Name := kv.1, Value := kv.2 })) := by
  induction axis generalizing env secrets with
  | nil => simp
  | cons kv rest ih => simp [List.foldl_cons, addAxisVariable, ih]

theorem resolveVariables_environ (w : World Template Config Compiled Engine) (c : Context)
    (axis : Axis) :
    (resolveVariables w c axis).environ =
      axis.foldl (fun env kv => env.set kv.1 kv.2)
        ((w.environDrone (metadataFromContext c axis)).foldl (fun env kv => env.set kv.1 kv.2)
          (w.environ (metadataFromContext c axis))) := by
  simp only [resolveVariables, foldl_addAxisVariable]
  rfl

theorem resolveVariables_secrets (w : World Template Config Compiled Engine) (c : Context)
    (axis : Axis) :
    (resolveVariables w c axis).secrets =
      axis.map (fun kv => { Name := kv.1, Value := kv.2 }) := by
  simp only [resolveVariables, foldl_addAxisVariable]
  simp [metadataFromContext]

/-- What a successful `substitute` has computed. -/
theorem substitute_ok (w : World Template Config Compiled Engine) (c : Context) (axis : Axis)
    {s : Substituted} (h : substitute w c axis = Outcome.ok s) :
    ∃ overrides tmpl,
      droneEnv (c.stringSlice "env") = Outcome.ok overrides ∧
      w.envsubstParseFile (definitionFile c) = Except.ok tmpl ∧
      w.templateExecute tmpl (environLookup (resolveVariables w c axis).environ)
        = Except.ok s.confstr ∧
      s.file = definitionFile c ∧
      s.metadata = (resolveVariables w c axis).metadata ∧
      s.environ = (resolveVariables w c axis).environ ∧
      s.secrets = (resolveVariables w c axis).secrets ∧
      s.droneEnv = overrides := by
  simp only [substitute, bind, pure] at h
  cases hd : droneEnv (c.stringSlice "env") with
  | error e => rw [hd] at h; simp [Outcome.bind] at h
  | panic p => rw [hd] at h; simp [Outcome.bind] at h
  | ok overrides =>
    cases hp : w.envsubstParseFile (definitionFile c) with
    | error e => rw [hd, hp] at h; simp [Outcome.bind, Outcome.ofExcept] at h
    | ok tmpl =>
      cases he : w.templateExecute tmpl (environLookup (resolveVariables w c axis).environ) with
      | error e => rw [hd, hp] at h; simp [Outcome.bind, Outcome.ofExcept, he] at h
      | ok confstr =>
        rw [hd, hp] at h
        simp only [Outcome.bind, Outcome.ofExcept, he, Outcome.ok.injEq] at h
        subst h
        exact ⟨overrides, tmpl, rfl, rfl, he, rfl, rfl, rfl, rfl, rfl⟩

/-- What a successful `compilerCall` hands to the compiler. -/
theorem compilerCall_ok (w : World Template Config Compiled Engine) (c : Context) (axis : Axis)
    {options : CompilerOptions} {conf : Config}
    (h : compilerCall w c axis = Outcome.ok (options, conf)) :
    ∃ s, substitute w c axis = Outcome.ok s ∧
      w.yamlParseString s.confstr = Except.ok conf ∧
      w.lint conf = none ∧
      options.volumes = configureVolumes w c conf s.file ∧
      options.metadata = s.metadata ∧
      options.secrets = s.secrets ∧
      options.environ = s.droneEnv := by
  simp only [compilerCall, bind, pure] at h
  cases hs : substitute w c axis with
  | error e => rw [hs] at h; simp [Outcome.bind] at h
  | panic p => rw [hs] at h; simp [Outcome.bind] at h
  | ok s =>
    cases hy : w.yamlParseString s.confstr with
    | error e => rw [hs] at h; simp [Outcome.bind, Outcome.ofExcept, hy] at h
    | ok conf' =>
      cases hl : w.lint conf' with
      | some e => rw [hs] at h; simp [Outcome.bind, Outcome.ofExcept, Outcome.ofError, hy, hl] at h
      | none =>
        rw [hs] at h
        simp only [Outcome.bind, Outcome.ofExcept, Outcome.ofError, hy, hl, Outcome.ok.injEq,
          Prod.mk.injEq] at h
        obtain ⟨ho, hc⟩ := h
        subst hc
        subst ho
        exact ⟨s, rfl, hy, hl, rfl, rfl, rfl, rfl⟩

/-- When its collaborators succeed, `execWithAxis` reaches the compiler. -/
theorem compilerCall_succeeds (w : World Template Config Compiled Engine) (c : Context)
    (axis : Axis) {m : GoMap} {tmpl : Template} {confstr : String} {conf : Config}
    (hd : droneEnv (c.stringSlice "env") = Outcome.ok m)
    (hp : w.envsubstParseFile (definitionFile c) = Except.ok tmpl)
    (he : w.templateExecute tmpl (environLookup (resolveVariables w c axis).environ)
      = Except.ok confstr)
    (hy : w.yamlParseString confstr = Except.ok conf) (hl : w.lint conf = none) :
    ∃ options, compilerCall w c axis = Outcome.ok (options, conf) := by
  simp only [compilerCall, substitute, hd, hp, he, hy, hl, Outcome.ofExcept, Outcome.ofError,
    Outcome.ok_bind, Outcome.pure_eq]
  exact ⟨_, rfl⟩

/-- C3. For every axis (a map, so its keys are distinct) and every CLI
metadata, each pair `(k, v)` of the axis is resolved: the environment built
by `execWithAxis` maps `k` to `v`, whatever `Environ` and `EnvironDrone`
defined for `k`, and the secrets built from the axis, which are the secrets
handed to the compiler, contain the secret with name `k` and value `v`;
when the collaborators before the compiler succeed the compiler is called
with that secret. -/
theorem axis_variables_resolved (w : World Template Config Compiled Engine) (c : Context)
    (axis : Axis) (hmap : axis.keys.Nodup) (k v : String) (hkv : (k, v) ∈ axis) :
    (resolveVariables w c axis).environ.find? k = some v ∧
    (∀ s, substitute w c axis = Outcome.ok s → s.environ.find? k = some v) ∧
    (∀ options conf, compilerCall w c axis = Outcome.ok (options, conf) →
      ({ Name := k, Value := v } : Secret) ∈ options.secrets) ∧
    (k, v) ∈ (resolveVariables w c axis).environ ∧
    environLookup (resolveVariables w c axis).environ k = v ∧
    ({ Name := k, Value := v } : Secret) ∈ (resolveVariables w c axis).secrets ∧
    (∀ m tmpl confstr conf, droneEnv (c.stringSlice "env") = Outcome.ok m →
      w.envsubstParseFile (definitionFile c) = Except.ok tmpl →
      w.templateExecute tmpl (environLookup (resolveVariables w c axis).environ)
        = Except.ok confstr →
      w.yamlParseString confstr = Except.ok conf → w.lint conf = none →
      ∃ options, compilerCall w c axis = Outcome.ok (options, conf) ∧
        ({ Name := k, Value := v } : Secret) ∈ options.secrets ∧
        options.secrets = (resolveVariables w c axis).secrets) := by
  have henv : (resolveVariables w c axis).environ.find? k = some v := by
    rw [resolveVariables_environ]
    exact GoMap.find?_foldl_set_of_mem axis hmap _ hkv
  have hsec : ({ Name := k, Value := v } : Secret) ∈ (resolveVariables w c axis).secrets := by
    rw [resolveVariables_secrets]
    exact List.mem_map.mpr ⟨(k, v), hkv, rfl⟩
  have hcall : ∀ options conf, compilerCall w c axis = Outcome.ok (options, conf) →
      options.secrets = (resolveVariables w c axis).secrets := by
    intro options conf hc
    obtain ⟨s, hs, _, _, _, _, hsec', _⟩ := compilerCall_ok w c axis hc
    obtain ⟨_, _, _, _, _, _, _, _, hs', _⟩ := substitute_ok w c axis hs
    rw [hsec', hs']
  refine ⟨henv, ?_, ?_, GoMap.mem_of_find? henv, ?_, hsec, ?_⟩
  · intro s hs
    obtain ⟨_, _, _, _, _, _, _, he, _, _⟩ := substitute_ok w c axis hs
    rw [he]; exact henv
  · intro options conf hc
    rw [hcall options conf hc]
    exact hsec
  · simp [environLookup, GoMap.get, henv]
  · intro m tmpl confstr conf hd hp he hy hl
    obtain ⟨options, ho⟩ := compilerCall_succeeds w c axis hd hp he hy hl
    refine ⟨options, ho, ?_, hcall options conf ho⟩
    rw [hcall options conf ho]
    exact hsec

/-- Witness of C3 on the sample world, whose metadata environment already
defines `GO_VERSION`: the axis value wins, and the compiler is called with
the secret. -/
theorem axis_variables_resolved_witness :
    (sampleWorld.environ (metadataFromContext sampleContext sampleAxis)).find? "GO_VERSION"
      = some "none" ∧
    (resolveVariables sampleWorld sampleContext sampleAxis).environ.find? "GO_VERSION"
      = some "1.20" ∧
    compilerCall sampleWorld sampleContext sampleAxis
      = Outcome.ok (sampleOptions, { Base := "", Path := "1.20" }) ∧
    ({ Name := "GO_VERSION", Value := "1.20" } : Secret) ∈ sampleOptions.secrets :=
  have h := axis_variables_resolved sampleWorld sampleContext sampleAxis (by decide)
    "GO_VERSION" "1.20" (by decide)
  ⟨by decide, h.1, by decide, h.2.2.1 sampleOptions { Base := "", Path := "1.20" } (by decide)⟩

/-- C10. The lookup handed to the template expander is total: a name that
is no key of the resolved environment yields the empty string, a key yields
its resolved value, and that value is the axis value when the axis defines
the name, otherwise the value of `EnvironDrone`, otherwise that of
`Environ` (and `""` when none defines it).  The substituted text is what
the template yields under this lookup, so a template that is the variable
`name` alone expands to the resolved value. -/
theorem environLookup_total (w : World Template Config Compiled Engine) (c : Context)
    (axis : Axis) (hmap : axis.keys.Nodup)
    (hdrone : (w.environDrone (metadataFromContext c axis)).keys.Nodup) (name : String) :
    (name ∉ (resolveVariables w c axis).environ.keys →
      environLookup (resolveVariables w c axis).environ name = "") ∧
    (∀ v, (resolveVariables w c axis).environ.find? name = some v →
      environLookup (resolveVariables w c axis).environ name = v) ∧
    environLookup (resolveVariables w c axis).environ name =
      (match axis.find? name with
        | some v => v
        | none =>
          match (w.environDrone (metadataFromContext c axis)).find? name with
          | some v => v
          | none => (w.environ (metadataFromContext c axis)).get name) ∧
    ((w.environ (metadataFromContext c axis)).keys.Nodup →
      ∀ v, (name, v) ∈ (resolveVariables w c axis).environ →
        environLookup (resolveVariables w c axis).environ name = v) ∧
    (∀ v, (name, v) ∈ axis → environLookup (resolveVariables w c axis).environ name = v) ∧
    (name ∉ axis.keys → ∀ v, (name, v) ∈ w.environDrone (metadataFromContext c axis) →
      environLookup (resolveVariables w c axis).environ name = v) ∧
    (name ∉ axis.keys → name ∉ (w.environDrone (metadataFromContext c axis)).keys →
      (w.environ (metadataFromContext c axis)).keys.Nodup →
      ∀ v, (name, v) ∈ w.environ (metadataFromContext c axis) →
        environLookup (resolveVariables w c axis).environ name = v) ∧
    (name ∉ axis.keys → name ∉ (w.environDrone (metadataFromContext c axis)).keys →
      name ∉ (w.environ (metadataFromContext c axis)).keys →
      environLookup (resolveVariables w c axis).environ name = "") ∧
    (∀ m tmpl, droneEnv (c.stringSlice "env") = Outcome.ok m →
      w.envsubstParseFile (definitionFile c) = Except.ok tmpl →
      (substitute w c axis).map (fun s => s.confstr) =
        Outcome.ofExcept
          (w.templateExecute tmpl (environLookup (resolveVariables w c axis).environ))) ∧
    (∀ m tmpl, droneEnv (c.stringSlice "env") = Outcome.ok m →
      w.envsubstParseFile (definitionFile c) = Except.ok tmpl →
      (∀ lookup, w.templateExecute tmpl lookup = Except.ok (lookup name)) →
      (substitute w c axis).map (fun s => s.confstr) =
        Outcome.ok (environLookup (resolveVariables w c axis).environ name)) := by
  have hget : ∀ {m : GoMap} {v : String}, m.find? name = some v → environLookup m name = v := by
    intro m v h
    simp [environLookup, GoMap.get, h]
  have hnone : ∀ {m : GoMap}, name ∉ m.keys → environLookup m name = "" := by
    intro m h
    simp [environLookup, GoMap.get, (GoMap.find?_eq_none_iff _ _).mpr h]
  have htie : ∀ m tmpl, droneEnv (c.stringSlice "env") = Outcome.ok m →
      w.envsubstParseFile (definitionFile c) = Except.ok tmpl →
      (substitute w c axis).map (fun s => s.confstr) =
        Outcome.ofExcept
          (w.templateExecute tmpl (environLookup (resolveVariables w c axis).environ)) := by
    intro m tmpl hd hp
    simp only [substitute, hd, hp, Outcome.ofExcept, Outcome.ok_bind]
    cases w.templateExecute tmpl (environLookup (resolveVariables w c axis).environ) <;> rfl
  refine ⟨hnone, fun v h => hget h, ?_, ?_, ?_, ?_, ?_, ?_, htie, ?_⟩
  · simp only [environLookup, GoMap.get, resolveVariables_environ]
    cases ha : GoMap.find? axis name with
    | some v =>
      rw [GoMap.find?_foldl_set_of_mem axis hmap _ (GoMap.mem_of_find? ha)]
      rfl
    | none =>
      rw [GoMap.find?_foldl_set_of_not_mem axis _ ((GoMap.find?_eq_none_iff _ _).mp ha)]
      cases hd : GoMap.find? (w.environDrone (metadataFromContext c axis)) name with
      | some v =>
        rw [GoMap.find?_foldl_set_of_mem _ hdrone _ (GoMap.mem_of_find? hd)]
        rfl
      | none =>
        rw [GoMap.find?_foldl_set_of_not_mem _ _ ((GoMap.find?_eq_none_iff _ _).mp hd)]
  · intro henv v hv
    apply hget
    apply GoMap.find?_of_mem _ hv
    rw [resolveVariables_environ]
    exact GoMap.nodup_foldl_set _ (GoMap.nodup_foldl_set _ henv)
  · intro v hv
    apply hget
    rw [resolveVariables_environ]
    exact GoMap.find?_foldl_set_of_mem axis hmap _ hv
  · intro ha v hv
    apply hget
    rw [resolveVariables_environ, GoMap.find?_foldl_set_of_not_mem axis _ ha]
    exact GoMap.find?_foldl_set_of_mem _ hdrone _ hv
  · intro ha hd henv v hv
    apply hget
    rw [resolveVariables_environ, GoMap.find?_foldl_set_of_not_mem axis _ ha,
      GoMap.find?_foldl_set_of_not_mem _ _ hd]
    exact GoMap.find?_of_mem henv hv
  · intro ha hd he
    have hfind : (resolveVariables w c axis).environ.find? name = none := by
      rw [resolveVariables_environ, GoMap.find?_foldl_set_of_not_mem axis _ ha,
        GoMap.find?_foldl_set_of_not_mem _ _ hd]
      exact (GoMap.find?_eq_none_iff _ _).mpr he
    simp [environLookup, GoMap.get, hfind]
  · intro m tmpl hd hp hprobe
    rw [htie m tmpl hd hp, hprobe]
    rfl

/-- Witness of C10 on the sample world, whose template is the variable
`GO_VERSION`: the axis value is read where the metadata says `none`, an
undefined name reads as `""`, and the substituted text is the axis value. -/
theorem environLookup_total_witness :
    environLookup (resolveVariables sampleWorld sampleContext sampleAxis).environ "GO_VERSION"
      = "1.20" ∧
    environLookup (resolveVariables sampleWorld sampleContext sampleAxis).environ "UNDEFINED"
      = "" ∧
    (substitute sampleWorld sampleContext sampleAxis).map (fun s => s.confstr)
      = Outcome.ok "1.20" :=
  have h := environLookup_total sampleWorld sampleContext sampleAxis (by decide) (by decide)
    "GO_VERSION"
  ⟨h.2.2.2.2.1 "1.20" (by decide),
    (environLookup_total sampleWorld sampleContext sampleAxis (by decide) (by decide)
      "UNDEFINED").1 (by decide),
    (h.2.2.2.2.2.2.2.2.2 [("A", "d"), ("B", "")] ".woodpecker.yml" (by decide) rfl
      (fun _ => rfl)).trans (congrArg Outcome.ok (h.2.2.2.2.1 "1.20" (by decide)))⟩

end ExecTheorems

/-! ## Environment overrides -/

theorem cut_eq_none {sep : Char} {s : List Char} (h : sep ∉ s) : cut sep s = none := by
  induction s with
  | nil => rfl
  | cons c rest ih =>
    simp only [List.mem_cons, not_or] at h
    have hc : ¬ c = sep := fun e => h.1 e.symm
    simp [cut, hc, ih h.2]

theorem cut_append {sep : Char} {a : List Char} (b : List Char) (h : sep ∉ a) :
    cut sep (a ++ sep :: b) = some (a, b) := by
  induction a with
  | nil => simp [cut]
  | cons c rest ih =>
    simp only [List.mem_cons, not_or] at h
    have hc : ¬ c = sep := fun e => h.1 e.symm
    simp [cut, hc, ih h.2]

theorem exists_cut {sep : Char} {s : List Char} (h : sep ∈ s) :
    ∃ a b, s = a ++ sep :: b ∧ sep ∉ a := by
  induction s with
  | nil => simp at h
  | cons c rest ih =>
    by_cases hc : c = sep
    · exact ⟨[], rest, by simp [hc], by simp⟩
    · have hrest : sep ∈ rest := by
        rcases List.mem_cons.mp h with h | h
        · exact absurd h.symm hc
        · exact h
      obtain ⟨a, b, hab, ha⟩ := ih hrest
      refine ⟨c :: a, b, by simp [hab], ?_⟩
      simp only [List.mem_cons, not_or]
      exact ⟨fun e => hc e.symm, ha⟩

/-- An override without `=` is not split, and reading `envs[1]` panics. -/
theorem setOverride_malformed (m : GoMap) {env : String} (h : '=' ∉ env.data) :
    setOverride m env = Outcome.panic (Panic.indexOutOfRange 1 1) := by
  simp [setOverride, SplitN, splitNChars, cut_eq_none h, index]

/-- An override `key=val` is split at the first `=` only. -/
theorem setOverride_split (m : GoMap) {a : List Char} (b : List Char) (h : '=' ∉ a) :
    setOverride m (String.mk (a ++ '=' :: b)) = Outcome.ok (m.set (String.mk a) (String.mk b)) := by
  simp [setOverride, SplitN, splitNChars, cut_append b h, index]

theorem setOverride_wellformed (m : GoMap) {env : String} (h : '=' ∈ env.data) :
    ∃ a b, env.data = a ++ '=' :: b ∧ '=' ∉ a ∧
      setOverride m env = Outcome.ok (m.set (String.mk a) (String.mk b)) := by
  obtain ⟨a, b, hab, ha⟩ := exists_cut h
  refine ⟨a, b, hab, ha, ?_⟩
  have he : env = String.mk (a ++ '=' :: b) := String.ext hab
  rw [he]
  exact setOverride_split m b ha

/-- Well-formed overrides never fail: the loop ends with a map. -/
theorem foldlM_setOverride_ok (envs : List String) (h : ∀ e ∈ envs, '=' ∈ e.data) (m : GoMap) :
    ∃ m', envs.foldlM setOverride m = Outcome.ok m' := by
  induction envs generalizing m with
  | nil => exact ⟨m, rfl⟩
  | cons e rest ih =>
    obtain ⟨a, b, _, _, hs⟩ := setOverride_wellformed m (h e (List.mem_cons_self _ _))
    rw [List.foldlM_cons, hs, Outcome.ok_bind]
    exact ih (fun e' he' => h e' (List.mem_cons_of_mem _ he')) _

theorem foldlM_setOverride_append {pre : List String} {m m₁ : GoMap}
    (h : pre.foldlM setOverride m = Outcome.ok m₁) (rest : List String) :
    (pre ++ rest).foldlM setOverride m = rest.foldlM setOverride m₁ := by
  induction pre generalizing m with
  | nil =>
    simp only [List.foldlM_nil, Outcome.pure_eq, Outcome.ok.injEq] at h
    subst h; rfl
  | cons e pre ih =>
    rw [List.cons_append, List.foldlM_cons]
    rw [List.foldlM_cons] at h
    cases hs : setOverride m e with
    | ok m₂ => rw [hs] at h; rw [Outcome.ok_bind] at h ⊢; exact ih h
    | error err => rw [hs] at h; simp at h
    | panic p => rw [hs] at h; simp at h

/-- Later overrides for other keys keep the value stored for `k`. -/
theorem foldlM_setOverride_keeps (k v : String) (post : List String)
    (hwf : ∀ e ∈ post, '=' ∈ e.data) (hkey : ∀ e ∈ post, ∀ v', e ≠ k ++ "=" ++ v')
    (m : GoMap) (hm : m.find? k = some v) :
    ∃ m', post.foldlM setOverride m = Outcome.ok m' ∧ m'.find? k = some v := by
  induction post generalizing m with
  | nil => exact ⟨m, rfl, hm⟩
  | cons e rest ih =>
    obtain ⟨a, b, hab, _, hs⟩ := setOverride_wellformed m (hwf e (List.mem_cons_self _ _))
    rw [List.foldlM_cons, hs, Outcome.ok_bind]
    apply ih (fun e' he' => hwf e' (List.mem_cons_of_mem _ he'))
      (fun e' he' => hkey e' (List.mem_cons_of_mem _ he'))
    have hne : String.mk a ≠ k := by
      intro hk
      apply hkey e (List.mem_cons_self _ _) (String.mk b)
      apply String.ext
      rw [hab, ← hk]
      simp [String.data_append]
    rw [GoMap.find?_set_other _ _ hne]
    exact hm

section OverrideTheorems

variable {Template Config Compiled Engine : Type}

theorem droneEnv_malformed (pre post : List String) (env : String)
    (hpre : ∀ e ∈ pre, '=' ∈ e.data) (henv : '=' ∉ env.data) :
    droneEnv (pre ++ env :: post) = Outcome.panic (Panic.indexOutOfRange 1 1) := by
  obtain ⟨m₁, hm₁⟩ := foldlM_setOverride_ok pre hpre []
  unfold droneEnv
  rw [foldlM_setOverride_append hm₁, List.foldlM_cons, setOverride_malformed m₁ henv]
  rfl

/-- C4 (what the code does). When the first malformed override, one without
`=`, is reached, `execWithAxis` does not return an error: indexing the
one-element split result at 1 panics with an index out of range. -/
theorem malformed_override_panics (w : World Template Config Compiled Engine) (c : Context)
    (axis : Axis) (pre post : List String) (env : String)
    (hpre : ∀ e ∈ pre, '=' ∈ e.data) (henv : '=' ∉ env.data)
    (hc : c.stringSlice "env" = pre ++ env :: post) :
    execWithAxis w c axis = Outcome.panic (Panic.indexOutOfRange 1 1) ∧
    ∀ e, execWithAxis w c axis ≠ Outcome.error e := by
  have h : execWithAxis w c axis = Outcome.panic (Panic.indexOutOfRange 1 1) := by
    simp only [execWithAxis, compilerCall, substitute, hc, droneEnv_malformed pre post env hpre henv,
      Outcome.panic_bind]
  refine ⟨h, ?_⟩
  intro e he
  rw [h] at he
  cases he

/-- The override `FOO` makes the sample run panic. -/
theorem malformed_override_panics_witness :
    execWithAxis sampleWorld (sampleContext.withEnv ["FOO"]) [] =
      Outcome.panic (Panic.indexOutOfRange 1 1) :=
  (malformed_override_panics sampleWorld (sampleContext.withEnv ["FOO"]) [] [] [] "FOO"
    (by simp) (by decide) rfl).1

theorem droneEnv_last_wins (pre post : List String) (k v : String)
    (hpre : ∀ e ∈ pre, '=' ∈ e.data) (hpost : ∀ e ∈ post, '=' ∈ e.data)
    (hk : '=' ∉ k.data) (hkey : ∀ e ∈ post, ∀ v', e ≠ k ++ "=" ++ v') :
    ∃ m, droneEnv (pre ++ [k ++ "=" ++ v] ++ post) = Outcome.ok m ∧ m.find? k = some v := by
  obtain ⟨m₁, hm₁⟩ := foldlM_setOverride_ok pre hpre []
  have hsplit : setOverride m₁ (k ++ "=" ++ v) = Outcome.ok (m₁.set k v) := by
    have he : k ++ "=" ++ v = String.mk (k.data ++ '=' :: v.data) := by
      apply String.ext
      simp [String.data_append]
    rw [he]
    exact setOverride_split m₁ v.data hk
  obtain ⟨m, hm, hfind⟩ := foldlM_setOverride_keeps k v post hpost hkey (m₁.set k v)
    (GoMap.find?_set_self _ _ _)
  refine ⟨m, ?_, hfind⟩
  unfold droneEnv
  rw [List.append_assoc, foldlM_setOverride_append hm₁, List.singleton_append,
    List.foldlM_cons, hsplit, Outcome.ok_bind]
  exact hm

/-- C5. Overrides are split at their first `=` only: in a list of
well-formed overrides, the last override `k=v` for the key `k` (a key
without `=`) makes the overrides map handed to the compiler map `k` to `v`
verbatim, further `=` characters included. -/
theorem override_split_first (w : World Template Config Compiled Engine) (c : Context)
    (axis : Axis) (pre post : List String) (k v : String)
    (hpre : ∀ e ∈ pre, '=' ∈ e.data) (hpost : ∀ e ∈ post, '=' ∈ e.data)
    (hk : '=' ∉ k.data) (hkey : ∀ e ∈ post, ∀ v', e ≠ k ++ "=" ++ v')
    (hc : c.stringSlice "env" = pre ++ [k ++ "=" ++ v] ++ post) :
    (∃ m, droneEnv (c.stringSlice "env") = Outcome.ok m ∧ m.find? k = some v) ∧
    (∀ options conf, compilerCall w c axis = Outcome.ok (options, conf) →
      options.environ.find? k = some v ∧ options.environ.get k = v) := by
  have hd := droneEnv_last_wins pre post k v hpre hpost hk hkey
  rw [← hc] at hd
  refine ⟨hd, ?_⟩
  intro options conf hcall
  obtain ⟨m, hm, hfind⟩ := hd
  obtain ⟨s, hs, _, _, _, _, _, henv⟩ := compilerCall_ok w c axis hcall
  obtain ⟨overrides, _, hov, _, _, _, _, _, _, hdrone⟩ := substitute_ok w c axis hs
  rw [hm] at hov
  cases hov
  rw [henv, hdrone]
  exact ⟨hfind, by simp [GoMap.get, hfind]⟩

/-- Witness of C5: `A=b=c` followed by `B=` maps `A` to `b=c`. -/
theorem override_split_first_witness :
    ∃ m, droneEnv ((sampleContext.withEnv ["A=b=c", "B="]).stringSlice "env") = Outcome.ok m ∧
      m.find? "A" = some "b=c" :=
  (override_split_first sampleWorld (sampleContext.withEnv ["A=b=c", "B="]) [] [] ["B="]
    "A" "b=c" (by simp) (by decide) (by decide)
    (by
      intro e he v' hv
      have he' : e = "B=" := by simpa using he
      subst he'
      have hdata := congrArg String.data hv
      simp [String.data_append] at hdata)
    rfl).1

/-- Well-formed overrides leave the rest of `substitute` to run. -/
theorem substitute_withEnv (w : World Template Config Compiled Engine) (c : Context)
    (axis : Axis) (envs : List String) (m : GoMap) (h : droneEnv envs = Outcome.ok m) :
    substitute w (c.withEnv envs) axis =
      (do
        let tmpl ← Outcome.ofExcept (w.envsubstParseFile (definitionFile c))
        let confstr ← Outcome.ofExcept
          (w.templateExecute tmpl (environLookup (resolveVariables w c axis).environ))
        pure
          { file := definitionFile c, metadata := (resolveVariables w c axis).metadata,
            environ := (resolveVariables w c axis).environ,
            secrets := (resolveVariables w c axis).secrets,
            droneEnv := m, confstr := confstr }) := by
  have hslice : (c.withEnv envs).stringSlice "env" = envs := by simp [Context.withEnv]
  simp only [substitute, hslice, h, Outcome.ok_bind]
  rfl

theorem configureVolumes_withEnv (w : World Template Config Compiled Engine) (c : Context)
    (envs : List String) (conf : Config) (file : String) :
    configureVolumes w (c.withEnv envs) conf file = configureVolumes w c conf file := by
  simp [configureVolumes, Context.withEnv]

/-- The options of the compiler with the overrides map blanked. -/
theorem compilerCall_withEnv (w : World Template Config Compiled Engine) (c : Context)
    (axis : Axis) (envs : List String) (m : GoMap) (h : droneEnv envs = Outcome.ok m) :
    (compilerCall w (c.withEnv envs) axis).map (fun oc => ({ oc.1 with environ := [] }, oc.2)) =
      (compilerCall w (c.withEnv []) axis).map (fun oc => ({ oc.1 with environ := [] }, oc.2)) := by
  have h₀ : droneEnv [] = Outcome.ok [] := rfl
  simp only [compilerCall, substitute_withEnv w c axis envs m h,
    substitute_withEnv w c axis [] [] h₀, configureVolumes_withEnv]
  cases hp : w.envsubstParseFile (definitionFile c) with
  | error e => rfl
  | ok tmpl =>
    simp only [Outcome.ofExcept, Outcome.ok_bind]
    cases he : w.templateExecute tmpl (environLookup (resolveVariables w c axis).environ) with
    | error e => rfl
    | ok confstr =>
      simp only [Outcome.ok_bind, Outcome.pure_eq]
      cases hy : w.yamlParseString confstr with
      | error e => rfl
      | ok conf =>
        simp only [Outcome.ok_bind]
        cases hl : w.lint conf with
        | some e => rfl
        | none => rfl

/-- C9. User-supplied overrides do not influence template substitution: for
any two lists of well-formed overrides, the two runs of `execWithAxis` use
the same environment for substitution and obtain the same substituted text
(or the same template error), and hand the compiler the same options apart
from the overrides map, which is the map parsed from the overrides. -/
theorem overrides_do_not_reach_template (w : World Template Config Compiled Engine)
    (c : Context) (axis : Axis) (envs₁ envs₂ : List String)
    (h₁ : ∀ e ∈ envs₁, '=' ∈ e.data) (h₂ : ∀ e ∈ envs₂, '=' ∈ e.data) :
    (substitute w (c.withEnv envs₁) axis).map (fun s => (s.environ, s.confstr)) =
      (substitute w (c.withEnv envs₂) axis).map (fun s => (s.environ, s.confstr)) ∧
    (compilerCall w (c.withEnv envs₁) axis).map (fun oc => ({ oc.1 with environ := [] }, oc.2)) =
      (compilerCall w (c.withEnv envs₂) axis).map
        (fun oc => ({ oc.1 with environ := [] }, oc.2)) ∧
    (∀ options conf, compilerCall w (c.withEnv envs₁) axis = Outcome.ok (options, conf) →
      droneEnv envs₁ = Outcome.ok options.environ) := by
  obtain ⟨m₁, hm₁⟩ := foldlM_setOverride_ok envs₁ h₁ []
  obtain ⟨m₂, hm₂⟩ := foldlM_setOverride_ok envs₂ h₂ []
  refine ⟨?_, ?_, ?_⟩
  · rw [substitute_withEnv w c axis envs₁ m₁ hm₁, substitute_withEnv w c axis envs₂ m₂ hm₂]
    cases hp : w.envsubstParseFile (definitionFile c) with
    | error e => rfl
    | ok tmpl =>
      simp only [Outcome.ofExcept, Outcome.ok_bind]
      cases he : w.templateExecute tmpl (environLookup (resolveVariables w c axis).environ) with
      | error e => rfl
      | ok confstr => rfl
  · rw [compilerCall_withEnv w c axis envs₁ m₁ hm₁, compilerCall_withEnv w c axis envs₂ m₂ hm₂]
  · intro options conf hcall
    obtain ⟨s, hs, _, _, _, _, _, henv⟩ := compilerCall_ok w (c.withEnv envs₁) axis hcall
    obtain ⟨overrides, _, hov, _, _, _, _, _, _, hdrone⟩ :=
      substitute_ok w (c.withEnv envs₁) axis hs
    have hslice : (c.withEnv envs₁).stringSlice "env" = envs₁ := by simp [Context.withEnv]
    rw [hslice] at hov
    rw [henv, hdrone]
    exact hov

/-- Witness of C9 on the sample world: two different override lists give the
same substituted text. -/
theorem overrides_do_not_reach_template_witness :
    (substitute sampleWorld (sampleContext.withEnv ["GO_VERSION=9"]) [("GO_VERSION", "1.20")]).map
        (fun s => (s.environ, s.confstr)) =
      (substitute sampleWorld (sampleContext.withEnv []) [("GO_VERSION", "1.20")]).map
        (fun s => (s.environ, s.confstr)) :=
  (overrides_do_not_reach_template sampleWorld sampleContext [("GO_VERSION", "1.20")]
    ["GO_VERSION=9"] [] (by decide) (by simp)).1

end OverrideTheorems

/-! ## Path conversion for Windows -/

theorem isDriveLetter_ascii {c : Char} (h : isDriveLetter c = true) : c.val < 128 := by
  have hz : c ≤ 'z' := by
    simp only [isDriveLetter, Bool.or_eq_true, Bool.and_eq_true, decide_eq_true_eq] at h
    rcases h with h | h
    · exact h.2
    · exact le_trans h.2 (by decide)
  have h1 := Char.le_def.mp hz
  rw [UInt32.le_def, BitVec.le_def] at h1
  rw [UInt32.lt_def, BitVec.lt_def]
  have h2 : ('z' : Char).val.toBitVec.toNat = 122 := by decide
  have h3 : (128 : UInt32).toBitVec.toNat = 128 := by decide
  rw [h2] at h1
  rw [h3]
  omega

theorem TrimPrefix_append (path base : String) (rest : List Char)
    (hp : path.data = base.data ++ rest) : TrimPrefix path base = String.mk rest := by
  have hpre : base.data.isPrefixOf path.data = true := by
    rw [List.isPrefixOf_iff_prefix, hp]
    exact List.prefix_append _ _
  simp [TrimPrefix, hpre, hp]

/-- The result for a volume name of two characters, whatever they are. -/
theorem convertPathForWindows_two (volumeName : String → String) (lowerRune : Char → Char)
    (path : String) (rest : List Char) (hp : path.data = (volumeName path).data ++ rest)
    (h2 : (volumeName path).length = 2) :
    convertPathForWindows volumeName lowerRune path =
      "/" ++ ToLower lowerRune (TrimSuffix (volumeName path) ":") ++ ToSlash (String.mk rest) := by
  simp only [convertPathForWindows]
  rw [if_pos h2, TrimPrefix_append path (volumeName path) rest hp]

/-- The result for a volume name made of an ASCII character and a colon. -/
theorem convertPathForWindows_colon (volumeName : String → String) (lowerRune : Char → Char)
    (path : String) (rest : List Char) (hp : path.data = (volumeName path).data ++ rest)
    (c : Char) (hbase : (volumeName path).data = [c, ':']) (hascii : c.val < 128) :
    convertPathForWindows volumeName lowerRune path =
      "/" ++ String.singleton c.toLower ++ ToSlash (String.mk rest) := by
  have h2 : (volumeName path).length = 2 := by
    show (volumeName path).data.length = 2
    rw [hbase]; rfl
  have hb : volumeName path = String.mk [c, ':'] := String.ext hbase
  rw [convertPathForWindows_two volumeName lowerRune path rest hp h2, hb]
  have hsuf : TrimSuffix (String.mk [c, ':']) ":" = String.mk [c] := by
    simp [TrimSuffix, List.isSuffixOf]
  have hlow : ToLower lowerRune (String.mk [c]) = String.singleton c.toLower := by
    simp [ToLower, hascii]
    rfl
  rw [hsuf, hlow]

/-- C6 (as stated, refuted). With the volume names of recent Go releases
the two cases of the claim do not cover every path: `1:\foo` has the
two-character volume name `1:`, which is no letter and colon, and the bare
`\\` is its own two-character volume name; the results `/1/foo` and `/\\`
differ from the reference, which only replaces the backslashes. -/
theorem convertPathForWindows_not_reference :
    VolumeName "1:\\foo" = "1:" ∧ isDriveLetter '1' = false ∧
    convertPathForWindows VolumeName (fun c => c) "1:\\foo" = "/1/foo" ∧
    convertPathReference "1:\\foo" = "1:/foo" ∧
    convertPathForWindows VolumeName (fun c => c) "1:\\foo" ≠ convertPathReference "1:\\foo" ∧
    VolumeName "\\\\" = "\\\\" ∧
    convertPathForWindows VolumeName (fun c => c) "\\\\" = "/\\\\" ∧
    convertPathReference "\\\\" = "//" := by
  decide

/-- C6 (amended). For every path and every `filepath.VolumeName` that
returns a leading part of the path: when the volume name has two characters
the result is `/`, the volume name without a trailing colon in lower case,
and the remainder with every backslash replaced by `/`, which for an ASCII
character and a colon, a drive letter in particular, is `/`, the lower-cased
character and the remainder; when the volume name has any other length the
result is the whole path with every backslash replaced by `/`. -/
theorem convertPathForWindows_by_volume (volumeName : String → String)
    (lowerRune : Char → Char) (path : String) (rest : List Char)
    (hp : path.data = (volumeName path).data ++ rest) :
    ((volumeName path).length = 2 →
      convertPathForWindows volumeName lowerRune path =
        "/" ++ ToLower lowerRune (TrimSuffix (volumeName path) ":") ++
          ToSlash (String.mk rest)) ∧
    (∀ c, (volumeName path).data = [c, ':'] → c.val < 128 →
      convertPathForWindows volumeName lowerRune path =
        "/" ++ String.singleton c.toLower ++ ToSlash (String.mk rest)) ∧
    (∀ c, (volumeName path).data = [c, ':'] → isDriveLetter c = true →
      convertPathForWindows volumeName lowerRune path =
        "/" ++ String.singleton c.toLower ++ ToSlash (String.mk rest) ∧
      convertPathForWindows volumeName lowerRune path = convertPathReference path) ∧
    ((volumeName path).length ≠ 2 →
      convertPathForWindows volumeName lowerRune path = ToSlash path) := by
  refine ⟨convertPathForWindows_two volumeName lowerRune path rest hp,
    convertPathForWindows_colon volumeName lowerRune path rest hp, ?_, ?_⟩
  · intro c hbase hc
    have h := convertPathForWindows_colon volumeName lowerRune path rest hp c hbase
      (isDriveLetter_ascii hc)
    refine ⟨h, ?_⟩
    rw [h]
    have hdata : path.data = c :: ':' :: rest := by rw [hp, hbase]; rfl
    simp [convertPathReference, hdata, hc]
  · intro h
    simp only [convertPathForWindows]
    rw [if_neg h]

/-- Witness of C6: the drive path of the specification. -/
theorem convertPathForWindows_by_volume_witness :
    convertPathForWindows VolumeName (fun c => c) "C:\\Users\\me\\proj" = "/c/Users/me/proj" :=
  ((convertPathForWindows_by_volume VolumeName (fun c => c) "C:\\Users\\me\\proj"
    "\\Users\\me\\proj".data (by decide)).2.2.1 'C' (by decide) (by decide)).1

/-! ## Volumes for local execution -/

section VolumeTheorems

variable {Template Config Compiled Engine : Type}

/-- C7. The volume list handed to the compiler: in local mode, the user
volumes in their order followed by `prefix_default:base` and
`dir:join(base, wpath)`, where `base` and `wpath` are the workspace base and
path of the definition when non-empty and the CLI values otherwise, and
`dir` is the directory of the definition file, converted on Windows;
outside local mode, the user volumes alone. -/
theorem volumes_configured (w : World Template Config Compiled Engine) (c : Context)
    (axis : Axis) (options : CompilerOptions) (conf : Config)
    (h : compilerCall w c axis = Outcome.ok (options, conf)) :
    (c.bool "local" = true →
      options.volumes =
        c.stringSlice "volumes" ++
          [c.string "prefix" ++ "_default:" ++
              (if (w.workspace conf).Base ≠ "" then (w.workspace conf).Base
                else c.string "workspace-base"),
            (if w.goos = "windows" then
                convertPathForWindows w.volumeName w.lowerRune (w.absDir (definitionFile c))
              else w.absDir (definitionFile c)) ++ ":" ++
              w.pathJoin
                (if (w.workspace conf).Base ≠ "" then (w.workspace conf).Base
                  else c.string "workspace-base")
                (if (w.workspace conf).Path ≠ "" then (w.workspace conf).Path
                  else c.string "workspace-path")]) ∧
    (c.bool "local" = false → options.volumes = c.stringSlice "volumes") := by
  obtain ⟨s, hs, _, _, hvol, _, _, _⟩ := compilerCall_ok w c axis h
  obtain ⟨_, _, _, _, _, hfile, _, _, _, _⟩ := substitute_ok w c axis hs
  rw [hvol, hfile]
  constructor
  · intro hl
    by_cases hb : (w.workspace conf).Base = "" <;>
      by_cases hp : (w.workspace conf).Path = "" <;>
      simp [configureVolumes, hl, hb, hp]
  · intro hl
    simp [configureVolumes, hl]

/-- Witness of C7 on the sample world, in local mode on Windows: the
definition has no workspace base, so the CLI base `/go` is used. -/
theorem volumes_configured_witness :
    sampleOptions.volumes = ["/tmp:/tmp", "wp_default:/go", "/c/src/app:/go/1.20"] ∧
    sampleContext.stringSlice "volumes" = ["/tmp:/tmp"] :=
  ⟨((volumes_configured sampleWorld sampleContext sampleAxis sampleOptions
      { Base := "", Path := "1.20" } (by decide)).1 (by decide)).trans (by decide),
    by decide⟩

end VolumeTheorems

/-! ## The default logger -/

/-- C8. The default logger returns an error exactly when the first part of
the stream cannot be obtained; it then returns that error and leaves the
sink untouched.  When the part is obtained it is copied to the line writer
of the step alias and no error is returned, whatever the copy returned. -/
theorem defaultLogger_spec {Part Sink : Type}
    (copy : String → Part → Sink → Sink × Option GoError) (proc : Step)
    (nextPart : Except GoError Part) (sink : Sink) :
    ((defaultLogger copy proc nextPart sink).2 ≠ none ↔ ∃ err, nextPart = Except.error err) ∧
    (∀ err, nextPart = Except.error err →
      defaultLogger copy proc nextPart sink = (sink, some err)) ∧
    (∀ part, nextPart = Except.ok part →
      defaultLogger copy proc nextPart sink = ((copy proc.Alias part sink).1, none)) := by
  cases nextPart with
  | error err => simp [defaultLogger]
  | ok part => simp [defaultLogger]

/-- Witness of C8: a copy that ends with an error is not surfaced. -/
theorem defaultLogger_spec_witness :
    defaultLogger sampleCopy { Alias := "build" } (Except.ok ("line\n", some "broken pipe")) [] =
      ([("build", "line\n")], none) :=
  (defaultLogger_spec sampleCopy { Alias := "build" }
    (Except.ok ("line\n", some "broken pipe")) []).2.2 ("line\n", some "broken pipe") rfl

end Woodpecker
